import Mathlib

/-!
Verification of the optimization-rule matching engine
(`OptimizationRuleModel.matchByRules`, src/unnamed/part_000 lines 205-249).

The matcher is a pure TypeScript static method.  The embedding below
translates it into Lean 4, staying faithful to the JavaScript semantics the
source actually runs under:

* `rule.conditions` is an untyped payload read through an unchecked type
  assertion (`as ContentLengthConditions` / `as ToolPresenceConditions`,
  lines 229 and 235).  A field that the payload does not carry reads as
  `undefined`; we model the payload as a record of `Option` fields, `none`
  standing for an absent / `undefined` key.
* In JavaScript, `x > undefined` is `false` (NaN comparison, line 230) and
  `b !== undefined` is `true` for a boolean `b` (line 236).
* `rulesByModel` is a plain object (`Record<string, OptimizationRule[]>`,
  line 212) and the groups are visited with `Object.entries` (line 224).
  ECMAScript enumerates own property keys of an ordinary object with the
  array-index keys (canonical numeric strings below 2^32 - 1) first, in
  ascending numeric order, followed by the remaining string keys in
  insertion order.  `entriesOrder` reproduces that.
* The inner `for` loop (lines 227-241) sets `match = false` and breaks at
  the first failing rule; a `ruleType` that is neither `"content_length"`
  nor `"tool_presence"` falls through both branches and leaves `match`
  untouched.
-/

/-- Request context passed to `matchByRules` (src/unnamed/part_000 lines
207-210): the token count and whether the request carries tools. -/
structure RequestContext where
  tokenCount : Int
  hasTools : Bool
deriving DecidableEq

/-- The `conditions` payload of a rule.  In the source it is an untyped
JSON value cast to `ContentLengthConditions` (`{maxLength: number}`) or
`ToolPresenceConditions` (`{hasTools: boolean}`) without any runtime check;
we model it as a record of optional fields, `none` meaning the key is
absent and reads as `undefined`. -/
structure Conditions where
  maxLength : Option Int
  hasTools : Option Bool
deriving DecidableEq

/-- An optimization rule, restricted to the fields `matchByRules` consults.
The persisted record also carries `id`, `entityType`, `entityId` and
`provider`, none of which is read by the matcher (lines 214-241), so they
are omitted from the embedding. -/
structure OptimizationRule where
  enabled : Bool
  targetModel : String
  ruleType : String
  conditions : Conditions
deriving DecidableEq

/-- One pass of the inner loop body (lines 228-240) for a single rule:
`true` means the loop continues (the rule lets the group keep matching),
`false` means the source sets `match = false` and breaks.

* `"content_length"` branch: breaks iff `context.tokenCount >
  conditions.maxLength`; when `maxLength` is absent the JavaScript
  comparison `tokenCount > undefined` is `false`, so the rule passes.
* `"tool_presence"` branch: breaks iff `context.hasTools !==
  conditions.hasTools`; when `hasTools` is absent, `bool !== undefined` is
  `true`, so the rule fails.
* Any other `ruleType` matches no branch and the loop body does nothing. -/
def ruleMatches (context : RequestContext) (rule : OptimizationRule) : Bool :=
  if rule.ruleType == "content_length" then
    match rule.conditions.maxLength with
    | some maxLength => if context.tokenCount > maxLength then false else true
    | none => true
  else if rule.ruleType == "tool_presence" then
    match rule.conditions.hasTools with
    | some hasTools => if context.hasTools != hasTools then false else true
    | none => false
  else
    true

/-- The rules surviving the `if (!rule.enabled) continue` filter of the
grouping loop (line 215). -/
def enabledRules (rules : List OptimizationRule) : List OptimizationRule :=
  rules.filter (fun r => r.enabled)

/-- Distinct values of a list in order of first occurrence: the insertion
order of the keys of `rulesByModel`, a key being created the first time its
model is seen (lines 217-221). -/
def firstOccur : List String → List String
  | [] => []
  | k :: ks => k :: (firstOccur ks).filter (fun k2 => k2 != k)

/-- The keys of `rulesByModel` in insertion order: each distinct
`targetModel` of an enabled rule, ordered by first encounter. -/
def encounterKeys (rules : List OptimizationRule) : List String :=
  firstOccur ((enabledRules rules).map (fun r => r.targetModel))

/-- Numeric value of a digit character (`'0'` has code 48). -/
def charVal (c : Char) : Nat := c.toNat - 48

/-- Value of a decimal digit string, most significant digit first. -/
def decimalVal (cs : List Char) : Nat := cs.foldl (fun n c => n * 10 + charVal c) 0

/-- ECMAScript array-index test for a property key: a canonical decimal
numeral (non-empty, all digits, no leading zero except `"0"` itself) whose
value is below 2^32 - 1.  Such keys are enumerated before all other string
keys by `Object.entries`. -/
def isArrayIndex (s : String) : Bool :=
  match s.data with
  | [] => false
  | c :: cs =>
    (c :: cs).all Char.isDigit
    && (cs.isEmpty || c != '0')
    && decimalVal (c :: cs) < 4294967295

/-- Sort key of an array-index property key (its numeric value). -/
def keyVal (s : String) : Nat := decimalVal s.data

/-- Insertion into an ascending-by-`keyVal` list. -/
def insertAsc (k : String) : List String → List String
  | [] => [k]
  | k2 :: ks => if keyVal k ≤ keyVal k2 then k :: k2 :: ks else k2 :: insertAsc k ks

/-- Insertion sort, ascending by `keyVal`. -/
def sortAsc : List String → List String
  | [] => []
  | k :: ks => insertAsc k (sortAsc ks)

/-- The order in which `Object.entries(rulesByModel)` (line 224) yields the
keys, given their insertion order: array-index keys first in ascending
numeric order, then the remaining keys in insertion order. -/
def entriesOrder (ks : List String) : List String :=
  sortAsc (ks.filter isArrayIndex) ++ ks.filter (fun k => !(isArrayIndex k))

/-- The bucket `rulesByModel[model]`: the enabled rules whose `targetModel`
is `model`, in input order (lines 214-222). -/
def groupOf (rules : List OptimizationRule) (model : String) : List OptimizationRule :=
  (enabledRules rules).filter (fun r => r.targetModel == model)

/-- Whether a whole group matches the context: the inner loop of lines
225-241 leaves `match = true` iff every rule of the bucket passes.
`List.all` short-circuits on the first `false` exactly as the `break`
does. -/
def groupMatches (rules : List OptimizationRule) (context : RequestContext)
    (model : String) : Bool :=
  (groupOf rules model).all (ruleMatches context)

/-- `OptimizationRuleModel.matchByRules` (lines 205-249): group the enabled
rules by `targetModel`, visit the groups in `Object.entries` order and
return the first fully matching group's model (`return model`, line 244),
or `none` for the `return null` of line 248. -/
def matchByRules (rules : List OptimizationRule) (context : RequestContext) :
    Option String :=
  (entriesOrder (encounterKeys rules)).find? (fun model => groupMatches rules context model)

/-- An enabled `content_length` rule with a well-formed payload. -/
def clRule (maxLength : Int) (model : String) : OptimizationRule :=
  ⟨true, model, "content_length", ⟨some maxLength, none⟩⟩

/-- An enabled `tool_presence` rule with a well-formed payload. -/
def tpRule (b : Bool) (model : String) : OptimizationRule :=
  ⟨true, model, "tool_presence", ⟨none, some b⟩⟩

/-! ### General helper lemmas -/

/-- `find?` only looks at the value of the predicate on the list's
elements. -/
theorem find?_congr {α : Type} (l : List α) (p q : α → Bool)
    (h : ∀ x ∈ l, p x = q x) : l.find? p = l.find? q := by
  induction l with
  | nil => rfl
  | cons a t ih =>
    rw [List.find?_cons, List.find?_cons, h a (List.mem_cons_self a t)]
    cases q a
    · exact ih fun x hx => h x (List.mem_cons_of_mem a hx)
    · rfl

/-- `List.all` is invariant under permutation of the list. -/
theorem all_perm {α : Type} {l1 l2 : List α} (p : α → Bool) (h : l1.Perm l2) :
    l1.all p = l2.all p := by
  induction h with
  | nil => rfl
  | cons a _ ih => simp [List.all_cons, ih]
  | swap a b l => simp only [List.all_cons]; rw [Bool.and_left_comm]
  | trans _ _ ih1 ih2 => rw [ih1, ih2]

/-- Inserting, in the middle of a list, an element already present on its
left does not change `List.all`. -/
theorem all_middle_of_mem {α : Type} {r : α} {l1 : List α} (l2 : List α)
    (p : α → Bool) (h : r ∈ l1) :
    (l1 ++ r :: l2).all p = (l1 ++ l2).all p := by
  cases hall : l1.all p with
  | false => simp [List.all_append, List.all_cons, hall]
  | true =>
    have hp : p r = true := (List.all_eq_true.mp hall) r h
    simp [List.all_append, List.all_cons, hall, hp]

/-! ### Lemmas about the key order -/

/-- Members of `firstOccur l` are members of `l`. -/
theorem mem_firstOccur {a : String} : ∀ {l : List String}, a ∈ firstOccur l → a ∈ l := by
  intro l
  induction l with
  | nil => intro h; exact h
  | cons k t ih =>
    intro h
    rcases List.mem_cons.mp h with h1 | h2
    · exact h1 ▸ List.mem_cons_self _ _
    · exact List.mem_cons_of_mem _ (ih (List.mem_filter.mp h2).1)

/-- Members of `insertAsc k l` are `k` or members of `l`. -/
theorem mem_insertAsc {a k : String} : ∀ {l : List String},
    a ∈ insertAsc k l → a = k ∨ a ∈ l := by
  intro l
  induction l with
  | nil =>
    intro h
    rcases List.mem_cons.mp h with h1 | h2
    · exact Or.inl h1
    · exact absurd h2 (List.not_mem_nil a)
  | cons b t ih =>
    intro h
    rw [insertAsc] at h
    split at h
    · rcases List.mem_cons.mp h with h1 | h2
      · exact Or.inl h1
      · exact Or.inr h2
    · rcases List.mem_cons.mp h with h1 | h2
      · exact Or.inr (h1 ▸ List.mem_cons_self b t)
      · rcases ih h2 with h3 | h4
        · exact Or.inl h3
        · exact Or.inr (List.mem_cons_of_mem b h4)

/-- Members of `sortAsc l` are members of `l`. -/
theorem mem_sortAsc {a : String} : ∀ {l : List String}, a ∈ sortAsc l → a ∈ l := by
  intro l
  induction l with
  | nil => intro h; exact h
  | cons k t ih =>
    intro h
    rcases mem_insertAsc h with h1 | h2
    · exact h1 ▸ List.mem_cons_self k t
    · exact List.mem_cons_of_mem k (ih h2)

/-- Members of `entriesOrder ks` are members of `ks`. -/
theorem mem_entriesOrder {a : String} {ks : List String}
    (h : a ∈ entriesOrder ks) : a ∈ ks := by
  rw [entriesOrder] at h
  rcases List.mem_append.mp h with h1 | h2
  · exact (List.mem_filter.mp (mem_sortAsc h1)).1
  · exact (List.mem_filter.mp h2).1

/-- When no key is an ECMAScript array index, `Object.entries` enumerates
the keys in insertion order. -/
theorem entriesOrder_eq_self (ks : List String)
    (h : ∀ k ∈ ks, isArrayIndex k = false) : entriesOrder ks = ks := by
  have h1 : ks.filter isArrayIndex = [] :=
    List.filter_eq_nil_iff.mpr (by intro a ha; simp [h a ha])
  have h2 : ks.filter (fun k => !(isArrayIndex k)) = ks :=
    List.filter_eq_self.mpr (by intro a ha; simp [h a ha])
  rw [entriesOrder, h1, h2, sortAsc, List.nil_append]

/-- A single key is enumerated as the single entry, array index or not. -/
theorem entriesOrder_singleton (k : String) : entriesOrder [k] = [k] := by
  cases h : isArrayIndex k with
  | false => simp [entriesOrder, List.filter, h, sortAsc]
  | true => simp [entriesOrder, List.filter, h, sortAsc, insertAsc]

/-- Two rule lists with the same enabled rules are matched identically. -/
theorem matchByRules_congr_enabled (l1 l2 : List OptimizationRule)
    (context : RequestContext) (h : enabledRules l1 = enabledRules l2) :
    matchByRules l1 context = matchByRules l2 context := by
  simp only [matchByRules, encounterKeys, groupMatches, groupOf, h]

/-! ### Claims -/

/-- C1, counterexample.  The claim states that a rule whose `ruleType` is
not a recognized variant makes the whole evaluation fail as a hard
`UnknownRuleType` error and never silently matches.  On the code, an
enabled rule with `ruleType = "mystery"` falls through both branches of the
inner loop (lines 228-240), silently matches, its one-rule group fully
matches, and `matchByRules` returns its target model instead of failing. -/
theorem unknown_rule_type_cex :
    ruleMatches ⟨9999, true⟩ ⟨true, "mystery-model", "mystery", ⟨none, none⟩⟩ = true
    ∧ matchByRules [⟨true, "mystery-model", "mystery", ⟨none, none⟩⟩] ⟨9999, true⟩
        = some "mystery-model" := by
  constructor
  · decide
  · decide

/-- C1, amended.  A rule whose `ruleType` is neither `"content_length"` nor
`"tool_presence"` is silently skipped by the inner loop: it matches every
context vacuously, and when enabled it even makes its own one-rule group
fully match, so the evaluation completes normally (no hard error is ever
raised; `matchByRules` is a total function into `Option String`). -/
theorem unknown_rule_type_silently_matches (context : RequestContext)
    (rule : OptimizationRule)
    (h1 : rule.ruleType ≠ "content_length") (h2 : rule.ruleType ≠ "tool_presence") :
    ruleMatches context rule = true
    ∧ (rule.enabled = true → matchByRules [rule] context = some rule.targetModel) := by
  have hm : ruleMatches context rule = true := by
    simp [ruleMatches, h1, h2]
  refine ⟨hm, fun he => ?_⟩
  simp [matchByRules, encounterKeys, enabledRules, List.filter, he, firstOccur,
    entriesOrder_singleton, List.find?, groupMatches, groupOf, hm]

/-- C1, witness for the amended theorem at a concrete input. -/
theorem unknown_rule_type_silently_matches_witness :
    matchByRules [⟨true, "other-model", "shiny_new_rule", ⟨none, none⟩⟩] ⟨7, true⟩
      = some "other-model" :=
  (unknown_rule_type_silently_matches ⟨7, true⟩
    ⟨true, "other-model", "shiny_new_rule", ⟨none, none⟩⟩
    (by decide) (by decide)).2 rfl

/-- C2, counterexample.  The claim states that a structural mismatch
between `conditions` and `ruleType` surfaces as a distinguishable
`MalformedConditions` failure and never manifests as a silent match or
non-match.  On the code, a `content_length` rule whose payload is
`{hasTools: true}` (no `maxLength`) silently matches every context —
`tokenCount > undefined` is `false` — so a 9999-token request is routed to
its model; and a `tool_presence` rule whose payload is `{maxLength: 50}`
(no `hasTools`) silently fails to match — `hasTools !== undefined` is
`true` — so the evaluation returns the no-match sentinel.  Neither raises
any failure. -/
theorem malformed_conditions_cex :
    matchByRules [⟨true, "m", "content_length", ⟨none, some true⟩⟩] ⟨9999, false⟩ = some "m"
    ∧ matchByRules [⟨true, "m2", "tool_presence", ⟨some 50, none⟩⟩] ⟨0, false⟩ = none := by
  constructor
  · decide
  · decide

/-- C2, amended.  A structurally mismatched payload is never surfaced as an
error: a `content_length` rule whose `conditions` carry no `maxLength`
silently matches every context, and a `tool_presence` rule whose
`conditions` carry no `hasTools` silently matches no context; in both cases
the evaluation completes normally. -/
theorem malformed_conditions_silent (context : RequestContext)
    (rule : OptimizationRule) :
    (rule.ruleType = "content_length" → rule.conditions.maxLength = none →
      ruleMatches context rule = true)
    ∧ (rule.ruleType = "tool_presence" → rule.conditions.hasTools = none →
      ruleMatches context rule = false) := by
  constructor
  · intro h1 h2
    simp [ruleMatches, h1, h2]
  · intro h1 h2
    simp [ruleMatches, h1, h2]

/-- C2, witness for the amended theorem at concrete inputs. -/
theorem malformed_conditions_silent_witness :
    ruleMatches ⟨123456, false⟩ ⟨true, "m", "content_length", ⟨none, some false⟩⟩ = true
    ∧ ruleMatches ⟨0, true⟩ ⟨true, "m", "tool_presence", ⟨some 1, none⟩⟩ = false :=
  ⟨(malformed_conditions_silent ⟨123456, false⟩
      ⟨true, "m", "content_length", ⟨none, some false⟩⟩).1 rfl rfl,
   (malformed_conditions_silent ⟨0, true⟩
      ⟨true, "m", "tool_presence", ⟨some 1, none⟩⟩).2 rfl rfl⟩

/-- C3, counterexample.  The claim states that groups are always visited in
the order each distinct `targetModel` is first encountered.  `rulesByModel`
is a plain JavaScript object, and `Object.entries` enumerates array-index
keys (integer-like strings) in ascending numeric order before insertion
order applies.  With two always-matching groups named `"1"` (encountered
first) and `"0"`, the code returns `"0"`, not the first-encountered
`"1"`. -/
theorem encounter_order_cex :
    encounterKeys [clRule 1000 "1", clRule 1000 "0"] = ["1", "0"]
    ∧ groupMatches [clRule 1000 "1", clRule 1000 "0"] ⟨0, false⟩ "1" = true
    ∧ groupMatches [clRule 1000 "1", clRule 1000 "0"] ⟨0, false⟩ "0" = true
    ∧ matchByRules [clRule 1000 "1", clRule 1000 "0"] ⟨0, false⟩ = some "0" := by
  refine ⟨by decide, by decide, by decide, by decide⟩

/-- C3, amended.  Provided no group key is an ECMAScript array index (an
integer-like string below 2^32 - 1) — in particular for ordinary model
identifiers — the groups are visited in first-encounter order and scanning
stops at the first fully matching group; consequently, when the key list is
exactly `[a, b]` (a encountered first) and a's group fully matches, the
result is a's model, never b's. -/
theorem first_encounter_order_no_index_keys (rules : List OptimizationRule)
    (context : RequestContext)
    (h : ∀ k ∈ encounterKeys rules, isArrayIndex k = false) :
    matchByRules rules context
        = (encounterKeys rules).find? (fun model => groupMatches rules context model)
    ∧ (∀ a b, encounterKeys rules = [a, b] →
        groupMatches rules context a = true →
        matchByRules rules context = some a) := by
  have heq : entriesOrder (encounterKeys rules) = encounterKeys rules :=
    entriesOrder_eq_self _ h
  constructor
  · simp only [matchByRules, heq]
  · intro a b hab ha
    rw [hab] at heq
    simp only [matchByRules, hab, heq]
    exact List.find?_cons_of_pos _ ha

/-- C3, witness for the amended theorem at a concrete input: both groups
fully match and the first-encountered model wins. -/
theorem first_encounter_order_witness :
    matchByRules [clRule 10 "model-a", clRule 20 "model-b"] ⟨0, false⟩ = some "model-a" :=
  (first_encounter_order_no_index_keys [clRule 10 "model-a", clRule 20 "model-b"]
      ⟨0, false⟩ (by decide)).2 "model-a" "model-b" (by decide) (by decide)

/-- C4: a group's target model is selected only if every enabled rule of
the group matches the context (logical AND); a failing rule anywhere in the
group's bucket stops it from matching regardless of the rules after it (the
`break` of lines 231/237, reflected in the short-circuiting `&&` of
`List.all`); and in particular the group `[content_length{maxLength:100},
tool_presence{hasTools:true}]` fails against context `{tokenCount:50,
hasTools:false}`. -/
theorem group_and_semantics :
    (∀ (rules : List OptimizationRule) (context : RequestContext) (model : String)
        (rule : OptimizationRule),
      matchByRules rules context = some model →
      rule ∈ rules → rule.enabled = true → rule.targetModel = model →
      ruleMatches context rule = true)
    ∧ (∀ (context : RequestContext) (rule : OptimizationRule)
        (rest : List OptimizationRule),
      ruleMatches context rule = false →
      (rule :: rest).all (ruleMatches context) = false)
    ∧ matchByRules [clRule 100 "m", tpRule true "m"] ⟨50, false⟩ = none := by
  refine ⟨?_, ?_, by decide⟩
  · intro rules context model rule h hmem hen htm
    have h' : (entriesOrder (encounterKeys rules)).find?
        (fun m => groupMatches rules context m) = some model := h
    have hg0 := List.find?_some h'
    have hg : (groupOf rules model).all (ruleMatches context) = true := hg0
    have hin : rule ∈ groupOf rules model :=
      List.mem_filter.mpr ⟨List.mem_filter.mpr ⟨hmem, hen⟩, by simp [htm]⟩
    exact (List.all_eq_true.mp hg) rule hin
  · intro context rule rest h
    simp [List.all_cons, h]

/-- C4, witness: the general conjunct applied at a concrete input where the
match succeeds. -/
theorem group_and_semantics_witness :
    ruleMatches ⟨50, false⟩ (clRule 100 "m") = true :=
  group_and_semantics.1 [clRule 100 "m"] ⟨50, false⟩ "m" (clRule 100 "m")
    (by decide) (by decide) rfl rfl

/-- C5: a well-typed `content_length` rule matches exactly the contexts
whose `tokenCount` is at most `maxLength` (inclusive bound, from the strict
`>` of line 230); with `maxLength = 100`, token count 100 matches and 101
does not. -/
theorem content_length_inclusive_bound :
    (∀ (context : RequestContext) (rule : OptimizationRule) (m : Int),
      rule.ruleType = "content_length" → rule.conditions.maxLength = some m →
      (ruleMatches context rule = true ↔ context.tokenCount ≤ m))
    ∧ ruleMatches ⟨100, false⟩ (clRule 100 "m") = true
    ∧ ruleMatches ⟨101, false⟩ (clRule 100 "m") = false := by
  refine ⟨?_, by decide, by decide⟩
  intro context rule m h1 h2
  simp only [ruleMatches, h1, h2, beq_self_eq_true, if_true]
  split
  · rename_i hgt
    constructor
    · intro hfalse; exact absurd hfalse (by simp)
    · intro hle; omega
  · rename_i hle
    simp only [true_iff]
    omega

/-- C5, witness: the inclusive-bound equivalence applied at a concrete
input. -/
theorem content_length_inclusive_bound_witness :
    ruleMatches ⟨77, false⟩ (clRule 100 "m77") = true :=
  (content_length_inclusive_bound.1 ⟨77, false⟩ (clRule 100 "m77") 100
    rfl rfl).mpr (by decide)

/-- C6: a well-typed `tool_presence` rule matches exactly the contexts
whose `hasTools` equals the rule's `conditions.hasTools` (the `!==`
comparison of line 236). -/
theorem tool_presence_eq (context : RequestContext) (rule : OptimizationRule)
    (b : Bool) (h1 : rule.ruleType = "tool_presence")
    (h2 : rule.conditions.hasTools = some b) :
    ruleMatches context rule = true ↔ context.hasTools = b := by
  obtain ⟨tc, ht⟩ := context
  simp only [ruleMatches, h1, h2]
  cases ht <;> cases b <;> simp

/-- C6, witness: the equivalence applied at a concrete input. -/
theorem tool_presence_eq_witness :
    ruleMatches ⟨3, true⟩ (tpRule true "m") = true :=
  (tool_presence_eq ⟨3, true⟩ (tpRule true "m") true rfl rfl).mpr rfl

/-- C7: disabled rules never affect the routing result — matching a rule
list equals matching its sublist of enabled rules (the `continue` of line
215 discards them before grouping); the empty list yields the no-match
sentinel, and so does any list whose rules are all disabled. -/
theorem disabled_rules_never_affect (rules : List OptimizationRule)
    (context : RequestContext) :
    matchByRules rules context
        = matchByRules (rules.filter (fun r => r.enabled)) context
    ∧ matchByRules [] context = none
    ∧ ((∀ r ∈ rules, r.enabled = false) → matchByRules rules context = none) := by
  refine ⟨?_, rfl, ?_⟩
  · apply matchByRules_congr_enabled
    simp [enabledRules, List.filter_filter]
  · intro h
    have hnil : enabledRules rules = enabledRules [] :=
      List.filter_eq_nil_iff.mpr (by intro a ha; simp [h a ha])
    rw [matchByRules_congr_enabled rules [] context hnil]
    rfl

/-- C7, witness: a list whose only rule is disabled yields no match. -/
theorem disabled_rules_never_affect_witness :
    matchByRules [⟨false, "m", "content_length", ⟨some 5, none⟩⟩] ⟨0, false⟩ = none :=
  (disabled_rules_never_affect [⟨false, "m", "content_length", ⟨some 5, none⟩⟩]
    ⟨0, false⟩).2.2 (by decide)

/-- C8: grouping is stable.  Reordering the input rules while keeping the
overall multiset of rules (`List.Perm`) and the first-encounter order of
the distinct target models (`encounterKeys`) — which is exactly what a
permutation inside target-model groups that preserves each group's
first-encountered position does — yields the same matched model (or no
match on both sides): each bucket is permuted, and whether every rule of a
bucket matches does not depend on the bucket's internal order. -/
theorem grouping_stable (rules1 rules2 : List OptimizationRule)
    (context : RequestContext) (hperm : rules1.Perm rules2)
    (hkeys : encounterKeys rules1 = encounterKeys rules2) :
    matchByRules rules1 context = matchByRules rules2 context := by
  simp only [matchByRules, hkeys]
  apply find?_congr
  intro m _
  have hg : ((rules1.filter (fun r => r.enabled)).filter
        (fun r => r.targetModel == m)).Perm
      ((rules2.filter (fun r => r.enabled)).filter
        (fun r => r.targetModel == m)) :=
    List.Perm.filter _ (List.Perm.filter _ hperm)
  show ((rules1.filter (fun r => r.enabled)).filter
        (fun r => r.targetModel == m)).all (ruleMatches context)
      = ((rules2.filter (fun r => r.enabled)).filter
        (fun r => r.targetModel == m)).all (ruleMatches context)
  exact all_perm _ hg

/-- C8, witness: swapping the two rules of the group `"m"` (the group's
first position stays the first input position) leaves the result
unchanged. -/
theorem grouping_stable_witness :
    matchByRules [clRule 100 "m", tpRule true "m", clRule 500 "n"] ⟨40, true⟩
      = matchByRules [tpRule true "m", clRule 100 "m", clRule 500 "n"] ⟨40, true⟩ :=
  grouping_stable [clRule 100 "m", tpRule true "m", clRule 500 "n"]
    [tpRule true "m", clRule 100 "m", clRule 500 "n"] ⟨40, true⟩
    (List.Perm.swap (tpRule true "m") (clRule 100 "m") [clRule 500 "n"]) (by decide)

/-- C9: range soundness.  Whenever `matchByRules` returns a model, that
model is the `targetModel` of at least one enabled rule of the input list —
the returned key was put into `rulesByModel` by some enabled rule (lines
214-221). -/
theorem range_soundness (rules : List OptimizationRule)
    (context : RequestContext) (model : String)
    (h : matchByRules rules context = some model) :
    ∃ rule, rule ∈ rules ∧ rule.enabled = true ∧ rule.targetModel = model := by
  have h' : (entriesOrder (encounterKeys rules)).find?
      (fun m => groupMatches rules context m) = some model := h
  have h2 : model ∈ encounterKeys rules :=
    mem_entriesOrder (List.mem_of_find?_eq_some h')
  have h3 : model ∈ (enabledRules rules).map (fun r => r.targetModel) :=
    mem_firstOccur h2
  rcases List.mem_map.mp h3 with ⟨rule, hrule, htm⟩
  rcases List.mem_filter.mp hrule with ⟨hmem, hen⟩
  exact ⟨rule, hmem, by simpa using hen, htm⟩

/-- C9, witness: the soundness theorem applied at a concrete matching
input. -/
theorem range_soundness_witness :
    ∃ rule, rule ∈ [clRule 5 "m"] ∧ rule.enabled = true ∧ rule.targetModel = "m" :=
  range_soundness [clRule 5 "m"] ⟨0, false⟩ "m" (by decide)

/-- Removing an occurrence of `a` from the middle of the argument does not
change `firstOccur` once every `a` is filtered away. -/
theorem filter_ne_firstOccur_append (a : String) (xs ys : List String) :
    (firstOccur (xs ++ a :: ys)).filter (fun k => k != a)
      = (firstOccur (xs ++ ys)).filter (fun k => k != a) := by
  induction xs with
  | nil =>
    simp only [List.nil_append, firstOccur]
    rw [List.filter_cons]
    simp [List.filter_filter]
  | cons b xs ih =>
    simp only [List.cons_append, firstOccur]
    by_cases hba : b = a
    · subst hba
      rw [List.filter_cons, List.filter_cons]
      simp only [bne_self_eq_false, Bool.false_eq_true, if_false]
      simp only [List.filter_filter, Bool.and_self]
      exact ih
    · have hba' : (b != a) = true := by simp [hba]
      rw [List.filter_cons, List.filter_cons, hba']
      simp only [if_true]
      have hcong := congrArg (List.filter (fun k => k != b)) ih
      simp only [List.filter_filter] at hcong ⊢
      simpa [Bool.and_comm] using hcong

/-- Inserting a key that already occurred earlier does not change the
first-occurrence order: the duplicate joins an existing bucket of
`rulesByModel` instead of creating a new key (lines 218-221). -/
theorem firstOccur_append_cons_of_mem {a : String} {xs : List String}
    (ys : List String) (h : a ∈ xs) :
    firstOccur (xs ++ a :: ys) = firstOccur (xs ++ ys) := by
  induction xs with
  | nil => cases h
  | cons b xs ih =>
    rcases List.mem_cons.mp h with h1 | h2
    · subst h1
      simp only [List.cons_append, firstOccur, List.append_eq]
      rw [filter_ne_firstOccur_append]
    · simp only [List.cons_append, firstOccur, List.append_eq]
      rw [ih h2]

/-- C10: duplicate insensitivity.  Inserting a second copy of a rule `r`
anywhere after an occurrence of `r` leaves the result of `matchByRules`
unchanged: the duplicate joins `r`'s existing bucket, the conjunction of
the bucket's conditions is unchanged, and the first-encounter order of the
target models is preserved. -/
theorem duplicate_insensitive (u v : List OptimizationRule)
    (r : OptimizationRule) (context : RequestContext) (hr : r ∈ u) :
    matchByRules (u ++ r :: v) context = matchByRules (u ++ v) context := by
  cases he : r.enabled with
  | false =>
    apply matchByRules_congr_enabled
    simp [enabledRules, List.filter_append, List.filter_cons, he]
  | true =>
    have hrmem : r ∈ u.filter (fun x => x.enabled) :=
      List.mem_filter.mpr ⟨hr, by simp [he]⟩
    have hkeys : encounterKeys (u ++ r :: v) = encounterKeys (u ++ v) := by
      simp only [encounterKeys, enabledRules, List.filter_append, List.filter_cons, he,
        if_true, List.map_append, List.map_cons]
      exact firstOccur_append_cons_of_mem _ (List.mem_map.mpr ⟨r, hrmem, rfl⟩)
    have hgroups : ∀ m, groupMatches (u ++ r :: v) context m
        = groupMatches (u ++ v) context m := by
      intro m
      show ((enabledRules (u ++ r :: v)).filter (fun x => x.targetModel == m)).all
          (ruleMatches context)
        = ((enabledRules (u ++ v)).filter (fun x => x.targetModel == m)).all
          (ruleMatches context)
      simp only [enabledRules, List.filter_append, List.filter_cons, he, if_true]
      cases hm : (r.targetModel == m) with
      | false =>
        simp only [List.filter_append, List.filter_cons, hm, Bool.false_eq_true, if_false]
      | true =>
        simp only [List.filter_append, List.filter_cons, hm, if_true]
        exact all_middle_of_mem _ _ (List.mem_filter.mpr ⟨hrmem, hm⟩)
    show (entriesOrder (encounterKeys (u ++ r :: v))).find?
        (fun model => groupMatches (u ++ r :: v) context model)
      = (entriesOrder (encounterKeys (u ++ v))).find?
        (fun model => groupMatches (u ++ v) context model)
    rw [hkeys]
    exact find?_congr _ _ _ (fun m _ => hgroups m)

/-- C10, witness: duplicating the first rule changes nothing. -/
theorem duplicate_insensitive_witness :
    matchByRules [clRule 100 "m", tpRule true "n", clRule 100 "m"] ⟨60, true⟩
      = matchByRules [clRule 100 "m", tpRule true "n"] ⟨60, true⟩ :=
  duplicate_insensitive [clRule 100 "m", tpRule true "n"] []
    (clRule 100 "m") ⟨60, true⟩ (by decide)
